import Mathlib

/-! Verification of the findword repository.

Shallow embedding of the findword code base:

* `src/src/findword_api/models.py` — the `Word` model (here `WordEntry`),
  its `get_embedding_array` and `cosine_similarity` methods, and the Django
  queryset operations used by the similarity module (exact `get`, the
  `word__iexact` lookup used elsewhere in the code base, and the default
  `Meta.ordering = ['word']` scan order).
* `src/src/findword_api/similarity.py` — `calculate_cosine_similarity`,
  `find_similar_words` and `batch_find_similar_words`.
* `src/src/findword_api/management/commands/loadwords.py` — `parse_csv_row`,
  the `read_csv_file` loop, `load_words_batch` and the stats record.
* `src/temp/classify_words.py` — `parse_filename`, `extract_word_from_line`,
  `process_word_files`.
* `src/temp/generate_embeddings.py` — `get_embedding`,
  `process_words_in_batches`.

Embeddings are modelled as lists of rationals (the code stores JSON numbers
and converts to float32); similarity scores are real numbers.  Following
`np.linalg.norm v = Real.sqrt (Σ vᵢ²)`, the code's test `norm == 0` is
modelled as `Σ vᵢ² = 0`, which is exactly equivalent because the sum of
squares is nonnegative and `Real.sqrt x = 0 ↔ x ≤ 0`.
-/

/-- Dot product of two rational vectors (`np.dot` on equal-length 1-D arrays). -/
def dotQ (a b : List ℚ) : ℚ := (List.zipWith (fun x y => x * y) a b).sum

/-- Sum of squares of a vector; `np.linalg.norm v` is `Real.sqrt (normSq v)`. -/
def normSq (v : List ℚ) : ℚ := dotQ v v

/-- Dot product over the reals, used for the normalized vectors in
`find_similar_words`. -/
def dotR (a b : List ℝ) : ℝ := (List.zipWith (fun x y => x * y) a b).sum

/-- Model of `v / np.linalg.norm v`: divide every component by the Euclidean norm. -/
noncomputable def normalizeV (v : List ℚ) : List ℝ :=
  v.map (fun x => (x : ℝ) / Real.sqrt ((normSq v : ℝ)))

/-- Python `str.lower()` (ASCII range), written on the character list so
that it computes by structural recursion. -/
def lowerStr (s : String) : String := String.mk (s.toList.map Char.toLower)

/-- Python `str.upper()` (ASCII range). -/
def upperStr (s : String) : String := String.mk (s.toList.map Char.toUpper)

/-- Python `str.strip()`: drop leading and trailing whitespace. -/
def pyStrip (s : String) : String :=
  String.mk
    (((s.toList.dropWhile Char.isWhitespace).reverse.dropWhile
        Char.isWhitespace).reverse)

/-- A row of the `Word` model (`findword_api/models.py`).  `id` is the
auto-assigned primary key; `word` carries a unique constraint in the model. -/
structure WordEntry where
  id : Nat
  word : String
  is_noun : Bool
  is_verb : Bool
  embedding : List ℚ
deriving DecidableEq, Repr

/-- Errors surfaced by the similarity layer.  The Python code raises
`ValueError` with distinct messages for each of these raise sites and
`Word.DoesNotExist` for a failed lookup. -/
inductive SimError where
  | dimensionMismatch
  | zeroVector
  | emptyEmbedding
deriving DecidableEq, Repr

/-- Model of `Word.objects.get(word=w)`: exact (case-sensitive) match on the unique
`word` column; `None` models the `Word.DoesNotExist` exception. -/
def VectorStore.get (store : List WordEntry) (w : String) : Option WordEntry :=
  store.find? (fun e => e.word == w)

/-- Model of `Word.objects.get(word__iexact=w)`: the case-insensitive lookup used by
`views.py` (`visualize` action and the `search_words` endpoint). -/
def VectorStore.getIexact (store : List WordEntry) (w : String) : Option WordEntry :=
  store.find? (fun e => lowerStr e.word == lowerStr w)

/-- Model of `Word.get_embedding_array` (`models.py` lines 53-69): raises `ValueError`
if the stored embedding is empty.  The non-numeric branch cannot arise in
the typed model. -/
def WordEntry.get_embedding_array (e : WordEntry) : Except SimError (List ℚ) :=
  if e.embedding.isEmpty then .error .emptyEmbedding else .ok e.embedding

/-- Model of `calculate_cosine_similarity` (`similarity.py` lines 15-53): checks the
shapes, then raises on zero vectors (`norm == 0`, i.e. `normSq = 0`), and
otherwise returns `dot / (norm1 * norm2)` — the strict policy. -/
noncomputable def calculate_cosine_similarity (vec1 vec2 : List ℚ) :
    Except SimError ℝ :=
  if vec1.length ≠ vec2.length then .error .dimensionMismatch
  else if normSq vec1 = 0 ∨ normSq vec2 = 0 then .error .zeroVector
  else .ok ((dotQ vec1 vec2 : ℝ) /
    (Real.sqrt ((normSq vec1 : ℝ)) * Real.sqrt ((normSq vec2 : ℝ))))

/-- Model of `Word.cosine_similarity` (`models.py` lines 71-103): loads both embedding
arrays — the two leading guards are the `ValueError` raises of
`get_embedding_array` on an empty embedding — checks the shapes, and then
returns `0.0` for zero vectors — the permissive policy — else
`dot / (norm1 * norm2)`. -/
noncomputable def WordEntry.cosine_similarity (w1 w2 : WordEntry) :
    Except SimError ℝ :=
  if w1.embedding.isEmpty then .error .emptyEmbedding
  else if w2.embedding.isEmpty then .error .emptyEmbedding
  else if w1.embedding.length ≠ w2.embedding.length then .error .dimensionMismatch
  else if normSq w1.embedding = 0 ∨ normSq w2.embedding = 0 then .ok 0
  else .ok ((dotQ w1.embedding w2.embedding : ℝ) /
    (Real.sqrt ((normSq w1.embedding : ℝ)) * Real.sqrt ((normSq w2.embedding : ℝ))))

/-- The sum of squares of a rational vector is nonnegative. -/
theorem normSq_nonneg (v : List ℚ) : 0 ≤ normSq v := by
  unfold normSq dotQ
  induction v with
  | nil => simp
  | cons x xs ih =>
    simp only [List.zipWith_cons_cons, List.sum_cons]
    exact add_nonneg (mul_self_nonneg x) ih

/-- Model of `np.linalg.norm v == 0` is equivalent to the model's `normSq v = 0`. -/
theorem sqrt_normSq_eq_zero_iff (v : List ℚ) :
    Real.sqrt ((normSq v : ℝ)) = 0 ↔ normSq v = 0 := by
  rw [Real.sqrt_eq_zero']
  constructor
  · intro h
    have h' : (normSq v : ℝ) = 0 :=
      le_antisymm h (by exact_mod_cast normSq_nonneg v)
    exact_mod_cast h'
  · intro h
    rw [h]
    simp

/-! ## `find_similar_words` (`similarity.py` lines 56-149) -/

/-- Query errors of `find_similar_words`: `ValueError` for an invalid
`part_of_speech`, `Word.DoesNotExist` for a missing target, `ValueError`
from `get_embedding_array` for an empty target embedding, and `ValueError`
for a zero target vector. -/
inductive FindError where
  | invalidPos
  | notFound
  | emptyEmbedding
  | zeroVector
deriving DecidableEq, Repr

/-- Model of `part_of_speech is not None and part_of_speech not in ['noun', 'verb']`
(`similarity.py` line 92). -/
def posFilterBad (pos : Option String) : Bool :=
  match pos with
  | some p => p != "noun" && p != "verb"
  | none => false

/-- The queryset filter applied for a `part_of_speech` value
(`similarity.py` lines 107-110). -/
def posPred (pos : Option String) (e : WordEntry) : Bool :=
  match pos with
  | some "noun" => e.is_noun
  | some "verb" => e.is_verb
  | _ => true

/-- Insert an entry into a list that is sorted ascending by `word`. -/
def insertByWord (x : WordEntry) : List WordEntry → List WordEntry
  | [] => [x]
  | y :: ys => if x.word ≤ y.word then x :: y :: ys else y :: insertByWord x ys

/-- The default queryset order of the `Word` model:
`Meta.ordering = ['word']` (`models.py` lines 39-40) makes every scan,
including the `queryset.iterator()` loop of `find_similar_words`, yield
rows in ascending order of `word`. -/
def sortByWord (store : List WordEntry) : List WordEntry :=
  store.foldr insertByWord []

/-- The candidate loop of `find_similar_words` (`similarity.py` lines
123-145).  For each candidate in queryset order: an empty embedding makes
`get_embedding_array` raise `ValueError`, which the `except` clause turns
into a skip; a zero-norm candidate is skipped; a candidate whose dimension
differs from the target's makes `np.dot` raise `ValueError`, also caught
as a skip; otherwise the similarity is the dot product of the two unit
vectors and the candidate is kept when `similarity >= min_similarity`. -/
noncomputable def scoreCandidates (target : List ℚ) (min_similarity : ℝ) :
    List WordEntry → List (WordEntry × ℝ)
  | [] => []
  | w :: ws =>
    if w.embedding.isEmpty then scoreCandidates target min_similarity ws
    else if normSq w.embedding = 0 then scoreCandidates target min_similarity ws
    else if w.embedding.length ≠ target.length then
      scoreCandidates target min_similarity ws
    else
      let sim := dotR (normalizeV target) (normalizeV w.embedding)
      if min_similarity ≤ sim then
        (w, sim) :: scoreCandidates target min_similarity ws
      else scoreCandidates target min_similarity ws

/-- Stable insertion into a list sorted descending by score: the new element
goes in front of the first element whose score it reaches.  Python's
`list.sort(key=..., reverse=True)` is stable, and insertion sort with this
placement computes the same list. -/
noncomputable def insertDesc (x : WordEntry × ℝ) :
    List (WordEntry × ℝ) → List (WordEntry × ℝ)
  | [] => [x]
  | y :: ys => if y.2 ≤ x.2 then x :: y :: ys else y :: insertDesc x ys

/-- Model of `similar_words.sort(key=lambda x: x[1], reverse=True)`
(`similarity.py` line 148): stable descending sort by similarity. -/
noncomputable def sortDescBySim (l : List (WordEntry × ℝ)) :
    List (WordEntry × ℝ) :=
  l.foldr insertDesc []

/-- Model of `find_similar_words` (`similarity.py` lines 56-149): validate the
`part_of_speech` parameter, resolve the target with an exact lookup, load
its embedding, build the candidate queryset (everything but the target's
id, filtered by part of speech, in the model's default `word` order),
refuse a zero target vector, score the candidates, sort descending by
similarity and truncate to `limit`. -/
noncomputable def find_similar_words (store : List WordEntry)
    (target_word : String) (part_of_speech : Option String)
    (limit : Nat) (min_similarity : ℝ) :
    Except FindError (List (WordEntry × ℝ)) :=
  if posFilterBad part_of_speech then .error .invalidPos
  else
    match VectorStore.get store target_word with
    | none => .error .notFound
    | some target =>
      if target.embedding.isEmpty then .error .emptyEmbedding
      else if normSq target.embedding = 0 then .error .zeroVector
      else
        .ok ((sortDescBySim (scoreCandidates target.embedding min_similarity
          (((sortByWord store).filter (fun e => e.id != target.id)).filter
            (posPred part_of_speech)))).take limit)

/-- Model of `batch_find_similar_words` (`similarity.py` lines 152-194): one
dictionary entry per target word, in order; a `Word.DoesNotExist` or
`ValueError` from `find_similar_words` is caught and replaced by an empty
result list. -/
noncomputable def batch_find_similar_words (target_words : List String)
    (store : List WordEntry) (part_of_speech : Option String)
    (limit : Nat) (min_similarity : ℝ) :
    List (String × List (WordEntry × ℝ)) :=
  match target_words with
  | [] => []
  | w :: ws =>
    (w, match find_similar_words store w part_of_speech limit min_similarity with
        | .ok l => l
        | .error _ => []) ::
      batch_find_similar_words ws store part_of_speech limit min_similarity

/-! ## `loadwords` management command
(`src/src/findword_api/management/commands/loadwords.py`) -/

/-- A decoded JSON value, the result of `json.loads` on the `embd` column.
Only the shapes the validation code distinguishes are needed. -/
inductive Json where
  | num (q : ℚ)
  | str (s : String)
  | arr (elems : List Json)
  | obj
  | bool (b : Bool)
  | null

/-- One CSV row as handed to `parse_csv_row` by `csv.DictReader`: the four
required columns, with `embd` already passed through `json.loads`
(`none` models a `json.JSONDecodeError`). -/
structure CsvRow where
  word : String
  noun : String
  verb : String
  embd : Option Json

/-- Validation errors of `parse_csv_row` — one per `raise ValueError` site. -/
inductive ParseErr where
  | emptyWord
  | invalidNoun
  | invalidVerb
  | invalidJson
  | embeddingNotList
  | embeddingEmpty
  | embeddingNotNumeric
deriving DecidableEq, Repr

/-- The dictionary `parse_csv_row` returns on success. -/
structure ParsedWord where
  word : String
  is_noun : Bool
  is_verb : Bool
  embedding : List ℚ
deriving DecidableEq, Repr

/-- Python `str.strip("'\"")`: remove leading and trailing quote characters. -/
def stripQuotes (s : String) : String :=
  let isQuote : Char → Bool := fun c => c == '\'' || c == '"'
  String.mk (((s.toList.dropWhile isQuote).reverse.dropWhile isQuote).reverse)

/-- Read one JSON element as a number, for the
`isinstance(x, (int, float))` check. -/
def Json.asNum : Json → Option ℚ
  | .num q => some q
  | _ => none

/-- Model of `Command.parse_csv_row` (`loadwords.py` lines 99-148): the word is the
`word` cell stripped of whitespace and of surrounding quotes — with no case
normalization; the `noun`/`verb` cells must upper-case to `Y` or `N`; the
`embd` cell must decode to a non-empty JSON list of numbers. -/
def parse_csv_row (row : CsvRow) : Except ParseErr ParsedWord :=
  let word := stripQuotes (pyStrip row.word)
  if word = "" then .error .emptyWord
  else
    let noun := upperStr (pyStrip row.noun)
    let verb := upperStr (pyStrip row.verb)
    if noun ≠ "Y" ∧ noun ≠ "N" then .error .invalidNoun
    else if verb ≠ "Y" ∧ verb ≠ "N" then .error .invalidVerb
    else
      match row.embd with
      | none => .error .invalidJson
      | some j =>
        match j with
        | .arr elems =>
          if elems.isEmpty then .error .embeddingEmpty
          else
            match elems.mapM Json.asNum with
            | none => .error .embeddingNotNumeric
            | some embedding =>
              .ok { word := word, is_noun := noun = "Y", is_verb := verb = "Y",
                    embedding := embedding }
        | _ => .error .embeddingNotList

/-- The `self.stats` counters of the command (`loadwords.py` lines 35-40). -/
structure LoadStats where
  created : Nat
  updated : Nat
  skipped : Nat
  errors : Nat
deriving DecidableEq, Repr

/-- Model of `Command.__init__`: all counters start at zero. -/
def initStats : LoadStats := ⟨0, 0, 0, 0⟩

/-- The loop of `Command.read_csv_file` (`loadwords.py` lines 183-194):
stop once `limit` rows were collected (Python treats `limit=0` as no
limit), parse each row, keep the successes and count the failures. -/
def limitReached (limit : Option Nat) (collected : Nat) : Bool :=
  match limit with
  | some n => n != 0 && Nat.ble n collected
  | none => false

/-- The row loop of `Command.read_csv_file`; see `limitReached` above for
the `if limit and len(words_data) >= limit: break` guard. -/
def read_csv_loop (limit : Option Nat) :
    List CsvRow → List ParsedWord → LoadStats → List ParsedWord × LoadStats
  | [], acc, stats => (acc, stats)
  | r :: rs, acc, stats =>
    if limitReached limit acc.length then
      (acc, stats)
    else
      match parse_csv_row r with
      | .ok w => read_csv_loop limit rs (acc ++ [w]) stats
      | .error _ =>
        read_csv_loop limit rs acc { stats with errors := stats.errors + 1 }

/-- The primary key Django assigns to a freshly inserted row: one past the
largest id in use. -/
def nextId (store : List WordEntry) : Nat :=
  store.foldl (fun n e => max n e.id) 0 + 1

/-- One iteration of the `Command.load_words_batch` loop (`loadwords.py`
lines 219-250).  In dry-run mode only `Word.objects.filter(word=...).exists()`
is consulted and a would-update / would-create counter is bumped; otherwise
`Word.objects.update_or_create(word=..., defaults=...)` updates the row
matched by the exact word key (the `word` column is unique) or inserts a
new one, and the matching counter is bumped. -/
def loadStep (dry_run : Bool) (acc : List WordEntry × LoadStats)
    (w : ParsedWord) : List WordEntry × LoadStats :=
  let store := acc.1
  let stats := acc.2
  let exists_ := store.any (fun e => e.word == w.word)
  if dry_run then
    if exists_ then (store, { stats with updated := stats.updated + 1 })
    else (store, { stats with created := stats.created + 1 })
  else
    if exists_ then
      (store.map (fun e =>
         if e.word == w.word then
           { e with is_noun := w.is_noun, is_verb := w.is_verb,
                    embedding := w.embedding }
         else e),
       { stats with updated := stats.updated + 1 })
    else
      (store ++ [{ id := nextId store, word := w.word, is_noun := w.is_noun,
                   is_verb := w.is_verb, embedding := w.embedding }],
       { stats with created := stats.created + 1 })

/-- Model of `Command.load_words_batch` (`loadwords.py` lines 206-250): fold the
upsert (or dry-run check) over the parsed records. -/
def load_words_batch (words_data : List ParsedWord) (store : List WordEntry)
    (dry_run : Bool) (stats : LoadStats) : List WordEntry × LoadStats :=
  words_data.foldl (loadStep dry_run) (store, stats)

/-- The whole `handle` data path without `--clear`: read and validate the
CSV rows, then load the surviving records (`loadwords.py` lines 322-345). -/
def runLoad (rows : List CsvRow) (store : List WordEntry) (dry_run : Bool)
    (limit : Option Nat) : List WordEntry × LoadStats :=
  let (words_data, stats) := read_csv_loop limit rows [] initStats
  load_words_batch words_data store dry_run stats

/-- Model of `Word.objects.count()`. -/
def storeCount (store : List WordEntry) : Nat := store.length

/-- Model of `Word.objects.filter(is_noun=True).count()` and friends, as printed by
`print_summary` (`loadwords.py` lines 274-284). -/
def storeCountBy (store : List WordEntry) (noun verb : Bool) : Nat :=
  (store.filter (fun e => (!noun || e.is_noun) && (!verb || e.is_verb))).length

/-! ## `classify_words.py` (`src/temp/classify_words.py`) -/

/-- Model of `\w` of Python's `re` (ASCII part): letters, digits and underscore. -/
def isWordChar (c : Char) : Bool := c.isAlphanum || c == '_'

/-- Read a non-empty run of digits as a number, as `int(...)` does on the
third regex group. -/
def digitsToNat (ds : List Char) : Nat :=
  ds.foldl (fun n c => n * 10 + (c.toNat - '0'.toNat)) 0

/-- Model of `parse_filename` (`classify_words.py` lines 30-51): `re.match` of
`pos=(\w+),lang=(\w+),length=(\d+)\.txt` against the filename — a prefix
match, each `\w+`/`\d+` group matched greedily (the following literal is
not a word character, so maximal munch coincides with the regex).  `none`
models the `ValueError` on mismatch. -/
def parse_filename (filename : String) : Option (String × String × Nat) :=
  let cs := filename.toList
  if cs.take 4 ≠ "pos=".toList then none
  else
    let rest := (cs.drop 4)
    let pos := rest.takeWhile isWordChar
    let rest := rest.dropWhile isWordChar
    if pos.isEmpty then none
    else if rest.take 6 ≠ ",lang=".toList then none
    else
      let rest := rest.drop 6
      let lang := rest.takeWhile isWordChar
      let rest := rest.dropWhile isWordChar
      if lang.isEmpty then none
      else if rest.take 8 ≠ ",length=".toList then none
      else
        let rest := rest.drop 8
        let digits := rest.takeWhile Char.isDigit
        let rest := rest.dropWhile Char.isDigit
        if digits.isEmpty then none
        else if rest.take 4 ≠ ".txt".toList then none
        else some (String.mk pos, String.mk lang, digitsToNat digits)

/-- Model of `extract_word_from_line` (`classify_words.py` lines 54-72): `None`
without a colon; otherwise the lower-cased, stripped text before the first
colon, or `None` if that is empty. -/
def extract_word_from_line (line : String) : Option String :=
  if !(line.toList.contains ':') then none
  else
    let word :=
      lowerStr (pyStrip (String.mk (line.toList.takeWhile (fun c => c != ':'))))
    if word = "" then none else some word

/-- One file from `temp/raw_words/` as the classifier sees it: a name and
the list of lines of its body (an empty body, `st_size == 0`, is `[]`). -/
structure RawFile where
  name : String
  lines : List String
deriving DecidableEq, Repr

/-- The per-file step of the `process_word_files` loop (`classify_words.py`
lines 95-115): skip empty files, skip files with unparseable names
(with a warning), skip files that are not English noun/verb lists, and
otherwise add the file's `pos` to the label set of every word extracted
from its lines.  `word_pos_map` is the `defaultdict(set)`, modelled as a
total function into `Finset String` (absent words map to `∅`). -/
def applyFile (m : String → Finset String) (f : RawFile) :
    String → Finset String :=
  if f.lines.isEmpty then m
  else
    match parse_filename f.name with
    | none => m
    | some (pos, lang, _len) =>
      if lang ≠ "en" ∨ (pos ≠ "noun" ∧ pos ≠ "verb") then m
      else
        f.lines.foldl (fun m line =>
          match extract_word_from_line (pyStrip line) with
          | some w => fun x => if x = w then insert pos (m x) else m x
          | none => m) m

/-- Ascending insertion by file name, for `sorted(input_dir.glob("*.txt"))`. -/
def insertByName (x : RawFile) : List RawFile → List RawFile
  | [] => [x]
  | y :: ys => if x.name ≤ y.name then x :: y :: ys else y :: insertByName x ys

/-- Model of `process_word_files` (`classify_words.py` lines 75-117): iterate over
the files in sorted name order and accumulate the word → POS-set map. -/
def process_word_files (files : List RawFile) : String → Finset String :=
  (files.foldr insertByName []).foldl applyFile (fun _ => ∅)

/-! ## `generate_embeddings.py` (`src/temp/generate_embeddings.py`) -/

/-- One row of the classified-words CSV, the input of the embedding step. -/
structure ClassRow where
  word : String
  noun : String
  verb : String
deriving DecidableEq, Repr

/-- Model of `get_embedding` (`generate_embeddings.py` lines 108-128): `None` for a
blank word, otherwise `model[word]`, where a `KeyError` (out of
vocabulary) already appears as `none` in the `lookup` function that models
the pretrained `KeyedVectors`. -/
def get_embedding (lookup : String → Option (List ℚ)) (w : String) :
    Option (List ℚ) :=
  if pyStrip w = "" then none else lookup w

/-- The statistics dictionary of `process_words_in_batches`. -/
structure EmbStats where
  total_words : Nat
  words_with_embeddings : Nat
  words_skipped : Nat
  skipped_words : List String
deriving DecidableEq, Repr

/-- Model of `process_words_in_batches` (`generate_embeddings.py` lines 145-197):
attach `get_embedding` to every row in order (the batch size only drives
the progress bar), count hits and misses, record the first 10 missed
words, and drop the rows without an embedding (`dropna`) from the output. -/
def process_words_in_batches (df : List ClassRow)
    (lookup : String → Option (List ℚ)) :
    List (ClassRow × List ℚ) × EmbStats :=
  let annotated := df.map (fun r => (r, get_embedding lookup r.word))
  let df_with_embeddings :=
    annotated.filterMap (fun p => p.2.map (fun e => (p.1, e)))
  { fst := df_with_embeddings
    snd :=
      { total_words := df.length
        words_with_embeddings := annotated.countP (fun p => p.2.isSome)
        words_skipped := annotated.countP (fun p => p.2.isNone)
        skipped_words :=
          ((annotated.filter (fun p => p.2.isNone)).map
            (fun p => p.1.word)).take 10 } }

/-! ## Concrete fixtures used by witnesses and counterexamples -/

/-- A stored entry `dog`, lower-cased as produced by the ingestion pipeline. -/
def dogE : WordEntry :=
  { id := 1, word := "dog", is_noun := true, is_verb := false, embedding := [1] }

/-- An entry whose embedding is the zero vector. -/
def zeroE : WordEntry :=
  { id := 2, word := "zero", is_noun := false, is_verb := false, embedding := [0] }

/-- Claim C1 (code bug).  The spec and the repository's own test suite
(`tests.py::test_find_similar_words_case_insensitive`, which creates only
`dog` and then calls `find_similar_words('DOG')` and `('DoG')`) require the
target lookup to be case-insensitive, and the sibling endpoints in
`views.py` use `word__iexact` for exactly that purpose.  But
`find_similar_words` resolves the target with `Word.objects.get(word=...)`
— an exact lookup, case-sensitive on Django's default backends — so with
only `dog` stored the query `DOG` raises `Word.DoesNotExist` even though a
case-insensitive match exists: the exact lookup misses, the `iexact`
lookup used elsewhere in the same code base hits, and `find_similar_words`
fails with not-found. -/
theorem C1_case_sensitive_target_lookup :
    VectorStore.get [dogE] "DOG" = none ∧
    VectorStore.getIexact [dogE] "DOG" = some dogE ∧
    find_similar_words [dogE] "DOG" none 10 0 = .error .notFound :=
  ⟨rfl, rfl, rfl⟩

/-- The CSV row `Dog,Y,N,"[1]"` as `parse_csv_row` receives it. -/
def rowDog : CsvRow :=
  { word := "Dog", noun := "Y", verb := "N", embd := some (.arr [.num 1]) }

/-- Claim C2 (counterexample).  The claim says every word going through the
batch-load upsert path is lower-cased before storage.  It is not:
`parse_csv_row` only strips whitespace and surrounding quotes, so the row
`Dog,Y,N,"[1]"` is stored under the key `Dog`, which is not lower-case,
and loading `dog` and `Dog` yields two distinct entries. -/
theorem C2_counterexample_case_preserved :
    parse_csv_row rowDog =
      .ok { word := "Dog", is_noun := true, is_verb := false, embedding := [1] } ∧
    ((load_words_batch
        [{ word := "dog", is_noun := true, is_verb := false, embedding := [1] },
         { word := "Dog", is_noun := true, is_verb := false, embedding := [1] }]
        [] false initStats).1.map (fun e => e.word)) = ["dog", "Dog"] ∧
    "Dog" ≠ lowerStr "Dog" := by
  refine ⟨by rfl, by rfl, by decide⟩

/-- Claim C2 (amended).  The batch-load upsert path stores the word key
verbatim as `parse_csv_row` produced it — no case normalization — and the
upsert matches existing rows by the exact key: after loading one record
the stored keys are the old keys if the exact key already existed, else
the old keys with the parsed word appended unchanged. -/
theorem C2_amended_keys_stored_verbatim (w : ParsedWord)
    (store : List WordEntry) (stats : LoadStats) :
    ((load_words_batch [w] store false stats).1.map (fun e => e.word)) =
      if store.any (fun e => e.word == w.word) then store.map (fun e => e.word)
      else store.map (fun e => e.word) ++ [w.word] := by
  by_cases h : (store.any fun e => e.word == w.word) = true
  · rw [if_pos h]
    unfold load_words_batch loadStep
    simp only [List.foldl_cons, List.foldl_nil]
    rw [if_neg Bool.false_ne_true, if_pos h, List.map_map]
    apply List.map_congr_left
    intro e _
    by_cases he : e.word = w.word <;> simp [he]
  · rw [if_neg h]
    unfold load_words_batch loadStep
    simp only [List.foldl_cons, List.foldl_nil]
    rw [if_neg Bool.false_ne_true, if_neg h]
    simp

/-- Claim C3 (counterexample).  The claim says the pairwise two-word
comparison API fails with `ZeroVectorError` whenever either vector has
zero norm.  The model-level pairwise method `Word.cosine_similarity`
(`models.py` lines 100-101) instead returns `0.0` for a zero vector — the
permissive policy — as the spec's own design notes concede
("Inconsistent zero-vector policy"). -/
theorem C3_counterexample_permissive_model_method :
    WordEntry.cosine_similarity zeroE dogE = .ok 0 ∧
    WordEntry.cosine_similarity zeroE dogE ≠ .error SimError.zeroVector ∧
    normSq zeroE.embedding = 0 := by
  have hz : normSq zeroE.embedding = 0 := by simp [zeroE, normSq, dotQ]
  have hok : WordEntry.cosine_similarity zeroE dogE = .ok 0 := by
    unfold WordEntry.cosine_similarity
    rw [if_neg (by decide), if_neg (by decide), if_neg (by decide),
      if_pos (Or.inl hz)]
  exact ⟨hok, by rw [hok]; exact fun h => Except.noConfusion h, hz⟩

/-- Claim C3 (amended).  The standalone pairwise function
`calculate_cosine_similarity` uses the strict policy: it fails with a
dimension mismatch exactly when the lengths differ, fails with a
zero-vector error exactly when the lengths agree and either Euclidean
norm is zero, and returns `dot/(‖a‖·‖b‖)` whenever the lengths agree and
both norms are nonzero.  The model-level pairwise method
`Word.cosine_similarity` checks dimensions strictly but handles zero
vectors permissively, returning `0.0`. -/
theorem C3_amended_zero_vector_policies :
    (∀ a b : List ℚ,
      (calculate_cosine_similarity a b = .error .dimensionMismatch ↔
        a.length ≠ b.length) ∧
      (calculate_cosine_similarity a b = .error .zeroVector ↔
        a.length = b.length ∧
          (Real.sqrt ((normSq a : ℝ)) = 0 ∨ Real.sqrt ((normSq b : ℝ)) = 0)) ∧
      (a.length = b.length → Real.sqrt ((normSq a : ℝ)) ≠ 0 →
        Real.sqrt ((normSq b : ℝ)) ≠ 0 →
        calculate_cosine_similarity a b =
          .ok ((dotQ a b : ℝ) /
            (Real.sqrt ((normSq a : ℝ)) * Real.sqrt ((normSq b : ℝ)))))) ∧
    (∀ w1 w2 : WordEntry, w1.embedding ≠ [] → w2.embedding ≠ [] →
      w1.embedding.length = w2.embedding.length →
      (Real.sqrt ((normSq w1.embedding : ℝ)) = 0 ∨
        Real.sqrt ((normSq w2.embedding : ℝ)) = 0) →
      WordEntry.cosine_similarity w1 w2 = .ok 0) := by
  constructor
  · intro a b
    refine ⟨?_, ?_, ?_⟩
    · unfold calculate_cosine_similarity
      by_cases h : a.length = b.length
      · rw [if_neg (by simpa using h)]
        by_cases hz : normSq a = 0 ∨ normSq b = 0 <;> simp [hz, h]
      · rw [if_pos h]
        simp [h]
    · unfold calculate_cosine_similarity
      simp only [sqrt_normSq_eq_zero_iff]
      by_cases h : a.length = b.length
      · rw [if_neg (by simpa using h)]
        by_cases hz : normSq a = 0 ∨ normSq b = 0 <;> simp [hz, h]
      · rw [if_pos h]
        simp [h]
    · intro h ha hb
      have ha' : normSq a ≠ 0 := fun h0 => ha ((sqrt_normSq_eq_zero_iff a).mpr h0)
      have hb' : normSq b ≠ 0 := fun h0 => hb ((sqrt_normSq_eq_zero_iff b).mpr h0)
      unfold calculate_cosine_similarity
      rw [if_neg (by simpa using h), if_neg (by simp [ha', hb'])]
  · intro w1 w2 h1 h2 hlen hz
    have hz' : normSq w1.embedding = 0 ∨ normSq w2.embedding = 0 :=
      hz.imp (fun h0 => (sqrt_normSq_eq_zero_iff _).mp h0)
        (fun h0 => (sqrt_normSq_eq_zero_iff _).mp h0)
    unfold WordEntry.cosine_similarity
    rw [if_neg (by simpa using h1), if_neg (by simpa using h2),
      if_neg (by simpa using hlen), if_pos hz']

/-- Witness for `C3_amended_zero_vector_policies`: concrete instances of
the mismatch case, the strict value case and the permissive zero case. -/
theorem C3_amended_witness :
    calculate_cosine_similarity [(1 : ℚ)] [1, 0] = .error .dimensionMismatch ∧
    calculate_cosine_similarity [(1 : ℚ)] [1] =
      .ok ((dotQ [1] [1] : ℝ) /
        (Real.sqrt ((normSq [(1 : ℚ)] : ℝ)) * Real.sqrt ((normSq [(1 : ℚ)] : ℝ)))) ∧
    WordEntry.cosine_similarity zeroE dogE = .ok 0 := by
  have h := C3_amended_zero_vector_policies
  refine ⟨((h.1 [1] [1, 0]).1).mpr (by decide),
    (h.1 [1] [1]).2.2 (by decide) ?_ ?_,
    h.2 zeroE dogE (by decide) (by decide) (by decide)
      (Or.inl (by simp [zeroE, normSq, dotQ]))⟩ <;>
  · simp [normSq, dotQ]

/-! ## Ordering lemmas for the similarity ranking -/

/-- The order `find_similar_words` promises on its result list: descending
similarity, with equal similarities resolved by ascending word. -/
def RankedBefore (p q : WordEntry × ℝ) : Prop :=
  q.2 ≤ p.2 ∧ (p.2 = q.2 → p.1.word < q.1.word)

theorem insertByWord_perm (x : WordEntry) (l : List WordEntry) :
    (insertByWord x l).Perm (x :: l) := by
  induction l with
  | nil => simp [insertByWord]
  | cons y ys ih =>
    unfold insertByWord
    by_cases hc : x.word ≤ y.word
    · rw [if_pos hc]
    · rw [if_neg hc]
      exact (ih.cons y).trans (List.Perm.swap x y ys)

theorem sortByWord_perm (store : List WordEntry) :
    (sortByWord store).Perm store := by
  induction store with
  | nil => simp [sortByWord]
  | cons e es ih =>
    unfold sortByWord
    simp only [List.foldr_cons]
    exact (insertByWord_perm e _).trans (ih.cons e)

theorem insertByWord_pairwise (x : WordEntry) (l : List WordEntry)
    (hl : l.Pairwise (fun a b => a.word ≤ b.word)) :
    (insertByWord x l).Pairwise (fun a b => a.word ≤ b.word) := by
  induction l with
  | nil => simp [insertByWord]
  | cons y ys ih =>
    rw [List.pairwise_cons] at hl
    obtain ⟨hy, hys⟩ := hl
    unfold insertByWord
    by_cases hc : x.word ≤ y.word
    · rw [if_pos hc]
      refine List.Pairwise.cons ?_ (List.Pairwise.cons hy hys)
      intro z hz
      rcases List.mem_cons.mp hz with rfl | hz
      · exact hc
      · exact le_trans hc (hy z hz)
    · rw [if_neg hc]
      refine List.Pairwise.cons ?_ (ih hys)
      intro z hz
      rcases List.mem_cons.mp ((insertByWord_perm x ys).mem_iff.mp hz) with
        rfl | hz
      · exact le_of_not_le hc
      · exact hy z hz

theorem sortByWord_pairwise (store : List WordEntry) :
    (sortByWord store).Pairwise (fun a b => a.word ≤ b.word) := by
  induction store with
  | nil => simp [sortByWord]
  | cons e es ih =>
    unfold sortByWord
    simp only [List.foldr_cons]
    exact insertByWord_pairwise e _ ih

/-- With the model's unique constraint on `word`, the default scan order is
strictly ascending in `word`. -/
theorem sortByWord_pairwise_strict (store : List WordEntry)
    (hU : (store.map (fun e => e.word)).Nodup) :
    (sortByWord store).Pairwise (fun a b => a.word < b.word) := by
  have hperm : ((sortByWord store).map (fun e => e.word)).Perm
      (store.map (fun e => e.word)) := (sortByWord_perm store).map _
  have hU' : ((sortByWord store).map (fun e => e.word)).Nodup :=
    hperm.nodup_iff.mpr hU
  have hne : (sortByWord store).Pairwise (fun a b => a.word ≠ b.word) :=
    List.pairwise_map.mp hU'
  exact ((sortByWord_pairwise store).and hne).imp
    (fun h => lt_of_le_of_ne h.1 h.2)

theorem mem_scoreCandidates (t : List ℚ) (m : ℝ) (cands : List WordEntry)
    (p : WordEntry × ℝ) (hp : p ∈ scoreCandidates t m cands) :
    p.1 ∈ cands ∧ m ≤ p.2 := by
  induction cands with
  | nil => simp [scoreCandidates] at hp
  | cons w ws ih =>
    simp only [scoreCandidates] at hp
    split at hp
    · exact (ih hp).imp_left (List.mem_cons_of_mem w)
    · split at hp
      · exact (ih hp).imp_left (List.mem_cons_of_mem w)
      · split at hp
        · exact (ih hp).imp_left (List.mem_cons_of_mem w)
        · split at hp
          · rename_i hsim
            rcases List.mem_cons.mp hp with rfl | hp
            · exact ⟨List.mem_cons_self _ _, hsim⟩
            · exact (ih hp).imp_left (List.mem_cons_of_mem w)
          · exact (ih hp).imp_left (List.mem_cons_of_mem w)

theorem scoreCandidates_pairwise {R : WordEntry → WordEntry → Prop}
    (t : List ℚ) (m : ℝ) (cands : List WordEntry) (h : cands.Pairwise R) :
    (scoreCandidates t m cands).Pairwise (fun p q => R p.1 q.1) := by
  induction cands with
  | nil => simp [scoreCandidates]
  | cons w ws ih =>
    rw [List.pairwise_cons] at h
    obtain ⟨hw, hws⟩ := h
    simp only [scoreCandidates]
    split
    · exact ih hws
    · split
      · exact ih hws
      · split
        · exact ih hws
        · split
          · refine List.Pairwise.cons ?_ (ih hws)
            intro q hq
            exact hw q.1 (mem_scoreCandidates t m ws q hq).1
          · exact ih hws

theorem insertDesc_perm (x : WordEntry × ℝ) (l : List (WordEntry × ℝ)) :
    (insertDesc x l).Perm (x :: l) := by
  induction l with
  | nil => simp [insertDesc]
  | cons y ys ih =>
    unfold insertDesc
    by_cases hc : y.2 ≤ x.2
    · rw [if_pos hc]
    · rw [if_neg hc]
      exact (ih.cons y).trans (List.Perm.swap x y ys)

theorem sortDescBySim_perm (l : List (WordEntry × ℝ)) :
    (sortDescBySim l).Perm l := by
  induction l with
  | nil => simp [sortDescBySim]
  | cons x xs ih =>
    unfold sortDescBySim
    simp only [List.foldr_cons]
    exact (insertDesc_perm x _).trans (ih.cons x)

/-- Inserting an element that came later in the original (word-ascending)
order keeps the ranking sorted: the Python sort is stable, so an element
ties only with entries whose word precedes it... here stated the other way
round: `x` is original-earlier than everything in `l`. -/
theorem insertDesc_pairwise (x : WordEntry × ℝ) (l : List (WordEntry × ℝ))
    (hl : l.Pairwise RankedBefore)
    (hx : ∀ y ∈ l, x.2 = y.2 → x.1.word < y.1.word) :
    (insertDesc x l).Pairwise RankedBefore := by
  induction l with
  | nil => simp [insertDesc, RankedBefore]
  | cons y ys ih =>
    rw [List.pairwise_cons] at hl
    obtain ⟨hy, hys⟩ := hl
    unfold insertDesc
    by_cases hc : y.2 ≤ x.2
    · rw [if_pos hc]
      refine List.Pairwise.cons ?_ (List.Pairwise.cons hy hys)
      intro z hz
      rcases List.mem_cons.mp hz with rfl | hz
      · exact ⟨hc, hx z (List.mem_cons_self _ _)⟩
      · exact ⟨le_trans (hy z hz).1 hc, hx z (List.mem_cons_of_mem y hz)⟩
    · rw [if_neg hc]
      have hxy : x.2 < y.2 := not_le.mp hc
      refine List.Pairwise.cons ?_
        (ih hys (fun z hz he => hx z (List.mem_cons_of_mem y hz) he))
      intro z hz
      rcases List.mem_cons.mp ((insertDesc_perm x ys).mem_iff.mp hz) with
        rfl | hz
      · exact ⟨le_of_lt hxy, fun he => absurd he (ne_of_gt hxy)⟩
      · exact hy z hz

/-- The stable descending sort of a list whose ties are already in strictly
ascending word order is descending with word-ascending ties. -/
theorem sortDescBySim_pairwise (l : List (WordEntry × ℝ))
    (hl : l.Pairwise (fun p q => p.2 = q.2 → p.1.word < q.1.word)) :
    (sortDescBySim l).Pairwise RankedBefore := by
  induction l with
  | nil => simp [sortDescBySim]
  | cons x xs ih =>
    rw [List.pairwise_cons] at hl
    obtain ⟨hx, hxs⟩ := hl
    unfold sortDescBySim
    simp only [List.foldr_cons]
    refine insertDesc_pairwise x _ (ih hxs) ?_
    intro y hy
    exact hx y ((sortDescBySim_perm xs).mem_iff.mp hy)

/-- Decomposition of a successful `find_similar_words` call: the target was
resolved by the exact lookup and the result is the sorted, truncated
scoring of the candidate queryset. -/
theorem find_similar_ok_shape (store : List WordEntry) (target_word : String)
    (pos : Option String) (limit : Nat) (m : ℝ) (l : List (WordEntry × ℝ))
    (h : find_similar_words store target_word pos limit m = .ok l) :
    ∃ t, VectorStore.get store target_word = some t ∧
      l = (sortDescBySim (scoreCandidates t.embedding m
        (((sortByWord store).filter (fun e => e.id != t.id)).filter
          (posPred pos)))).take limit := by
  unfold find_similar_words at h
  split at h
  · exact absurd h (by simp)
  · split at h
    · exact absurd h (by simp)
    · rename_i t heq
      split at h
      · exact absurd h (by simp)
      · split at h
        · exact absurd h (by simp)
        · exact ⟨t, heq, (Except.ok.inj h).symm⟩

/-- Concrete evaluation: querying `dog` in the one-entry store succeeds
with an empty ranking (the target itself is excluded). -/
theorem findSimilar_dog_eval :
    find_similar_words [dogE] "dog" none 10 0 = .ok [] := by
  simp [find_similar_words, VectorStore.get, dogE, posFilterBad, sortByWord,
    insertByWord, scoreCandidates, sortDescBySim, normSq, dotQ, posPred]

/-- Claim C4.  Every successful `find_similar_words` result list is sorted
descending by similarity with ties in strictly ascending word order: the
candidates are scanned in the model's default ascending-`word` order
(`Meta.ordering`), the scoring loop preserves that order, and Python's
`sort(key=..., reverse=True)` is stable, so equal similarities keep the
ascending word order.  The hypothesis is the `Word.word` unique
constraint of the model. -/
theorem C4_sorted_desc_ties_ascending_word (store : List WordEntry)
    (target_word : String) (pos : Option String) (limit : Nat) (m : ℝ)
    (l : List (WordEntry × ℝ))
    (hU : (store.map (fun e => e.word)).Nodup)
    (h : find_similar_words store target_word pos limit m = .ok l) :
    l.Pairwise RankedBefore := by
  obtain ⟨t, hget, rfl⟩ :=
    find_similar_ok_shape store target_word pos limit m l h
  have h1 : (((sortByWord store).filter (fun e => e.id != t.id)).filter
      (posPred pos)).Pairwise (fun a b => a.word < b.word) :=
    ((sortByWord_pairwise_strict store hU).filter _).filter _
  have h2 := scoreCandidates_pairwise t.embedding m _ h1
  have h3 := sortDescBySim_pairwise _ (h2.imp (fun hlt => fun _ => hlt))
  exact h3.sublist (List.take_sublist _ _)

/-- Witness for `C4_sorted_desc_ties_ascending_word` at the one-entry
store. -/
theorem C4_witness :
    (([dogE].map (fun e => e.word)).Nodup) ∧
    find_similar_words [dogE] "dog" none 10 0 = .ok [] ∧
    List.Pairwise RankedBefore ([] : List (WordEntry × ℝ)) :=
  ⟨by decide, findSimilar_dog_eval,
    C4_sorted_desc_ties_ascending_word [dogE] "dog" none 10 0 []
      (by decide) findSimilar_dog_eval⟩

/-- Claim C5.  A successful `find_similar_words` call returns at most
`limit` results, every returned similarity is at least `min_similarity`,
and the resolved target entry itself never appears among the results
(the queryset excludes the target's id, the loop keeps only scores
passing the threshold, and the final step truncates to `limit`). -/
theorem C5_limit_threshold_no_self (store : List WordEntry)
    (target_word : String) (pos : Option String) (limit : Nat) (m : ℝ)
    (l : List (WordEntry × ℝ)) (_hK : 1 ≤ limit)
    (h : find_similar_words store target_word pos limit m = .ok l) :
    l.length ≤ limit ∧
    ∀ p ∈ l, m ≤ p.2 ∧ VectorStore.get store target_word ≠ some p.1 := by
  obtain ⟨t, hget, rfl⟩ :=
    find_similar_ok_shape store target_word pos limit m l h
  constructor
  · rw [List.length_take]
    exact min_le_left _ _
  · intro p hp
    have hp1 := (List.take_sublist _ _).subset hp
    have hp2 := (sortDescBySim_perm _).mem_iff.mp hp1
    obtain ⟨hmem, hm⟩ := mem_scoreCandidates _ _ _ p hp2
    refine ⟨hm, fun hgp => ?_⟩
    rw [hget] at hgp
    have ht : t = p.1 := Option.some.inj hgp
    have hid := (List.mem_filter.mp (List.mem_filter.mp hmem).1).2
    rw [ht] at hid
    simp at hid

/-- Witness for `C5_limit_threshold_no_self` at the one-entry store. -/
theorem C5_witness :
    1 ≤ 10 ∧ find_similar_words [dogE] "dog" none 10 0 = .ok [] ∧
    ([] : List (WordEntry × ℝ)).length ≤ 10 :=
  ⟨by decide, findSimilar_dog_eval,
    (C5_limit_threshold_no_self [dogE] "dog" none 10 0 []
      (by decide) findSimilar_dog_eval).1⟩

/-! ## Claims about the batch loader and the batch query -/

theorem load_foldl_dry_fst (words : List ParsedWord)
    (acc : List WordEntry × LoadStats) :
    (words.foldl (loadStep true) acc).1 = acc.1 := by
  induction words generalizing acc with
  | nil => rfl
  | cons w ws ih =>
    rw [List.foldl_cons, ih]
    unfold loadStep
    by_cases h : (acc.1.any fun e => e.word == w.word) = true <;> simp [h]

/-- Claim C6.  A dry-run load never mutates the store: it only consults
`Word.objects.filter(...).exists()` and bumps counters, so after
`load_words_batch(..., dry_run=True)` the store — and therefore every
aggregate count over it — is exactly what it was before. -/
theorem C6_dry_run_never_mutates (words : List ParsedWord)
    (store : List WordEntry) (stats : LoadStats) :
    (load_words_batch words store true stats).1 = store ∧
    storeCount (load_words_batch words store true stats).1 = storeCount store ∧
    ∀ noun verb : Bool,
      storeCountBy (load_words_batch words store true stats).1 noun verb =
        storeCountBy store noun verb := by
  have h : (load_words_batch words store true stats).1 = store :=
    load_foldl_dry_fst words (store, stats)
  exact ⟨h, by rw [h], fun noun verb => by rw [h]⟩

/-- Whether `parse_csv_row` accepts a row. -/
def rowOk (r : CsvRow) : Bool :=
  match parse_csv_row r with
  | .ok _ => true
  | .error _ => false

theorem read_csv_loop_counters (limit : Option Nat) (rows : List CsvRow) :
    ∀ acc stats, (read_csv_loop limit rows acc stats).2.created = stats.created ∧
      (read_csv_loop limit rows acc stats).2.updated = stats.updated ∧
      (read_csv_loop limit rows acc stats).2.skipped = stats.skipped := by
  induction rows with
  | nil => intro acc stats; exact ⟨rfl, rfl, rfl⟩
  | cons r rs ih =>
    intro acc stats
    unfold read_csv_loop
    by_cases h : limitReached limit acc.length = true
    · rw [if_pos h]
      exact ⟨rfl, rfl, rfl⟩
    · rw [if_neg h]
      split
      · exact ih _ _
      · exact ih _ _

theorem read_csv_loop_none_spec (rows : List CsvRow) :
    ∀ acc stats, (read_csv_loop none rows acc stats).2.errors =
        stats.errors + rows.countP (fun r => !rowOk r) ∧
      (read_csv_loop none rows acc stats).1.length =
        acc.length + rows.countP rowOk := by
  induction rows with
  | nil => intro acc stats; simp [read_csv_loop]
  | cons r rs ih =>
    intro acc stats
    unfold read_csv_loop
    rw [if_neg (by simp [limitReached])]
    cases hr : parse_csv_row r with
    | ok w =>
      have hok : rowOk r = true := by simp [rowOk, hr]
      obtain ⟨h1, h2⟩ := ih (acc ++ [w]) stats
      refine ⟨?_, ?_⟩
      · rw [h1]
        simp [List.countP_cons, hok]
      · rw [h2]
        simp [List.countP_cons, hok]
        omega
    | error e =>
      have hok : rowOk r = false := by simp [rowOk, hr]
      obtain ⟨h1, h2⟩ := ih acc { stats with errors := stats.errors + 1 }
      refine ⟨?_, ?_⟩
      · rw [h1]
        simp [List.countP_cons, hok]
        omega
      · rw [h2]
        simp [List.countP_cons, hok]

theorem loadStep_counters (dry : Bool) (acc : List WordEntry × LoadStats)
    (w : ParsedWord) :
    (loadStep dry acc w).2.created + (loadStep dry acc w).2.updated =
      acc.2.created + acc.2.updated + 1 ∧
    (loadStep dry acc w).2.skipped = acc.2.skipped ∧
    (loadStep dry acc w).2.errors = acc.2.errors := by
  unfold loadStep
  cases dry <;>
    by_cases h : (acc.1.any fun e => e.word == w.word) = true <;>
      simp [h] <;> omega

theorem load_foldl_counters (words : List ParsedWord) (dry : Bool) :
    ∀ acc : List WordEntry × LoadStats,
      (words.foldl (loadStep dry) acc).2.created +
          (words.foldl (loadStep dry) acc).2.updated =
        acc.2.created + acc.2.updated + words.length ∧
      (words.foldl (loadStep dry) acc).2.skipped = acc.2.skipped ∧
      (words.foldl (loadStep dry) acc).2.errors = acc.2.errors := by
  induction words with
  | nil => intro acc; simp
  | cons w ws ih =>
    intro acc
    rw [List.foldl_cons]
    obtain ⟨h1, h2, h3⟩ := ih (loadStep dry acc w)
    obtain ⟨g1, g2, g3⟩ := loadStep_counters dry acc w
    refine ⟨?_, by rw [h2, g2], by rw [h3, g3]⟩
    rw [h1, g1]
    simp
    omega

/-- Claim C10.  The `skipped` counter stays `0` on every run: it is
initialized to zero in `Command.__init__` and no code path increments it.
Rows rejected by validation go to the `errors` counter during
`read_csv_file`, and every surviving record is tallied as exactly one
`created` or `updated`, so `created + updated` accounts for every record
that was not counted as an error. -/
theorem C10_skipped_counter_always_zero (rows : List CsvRow)
    (store : List WordEntry) (dry : Bool) (limit : Option Nat) :
    (runLoad rows store dry limit).2.skipped = 0 ∧
    (runLoad rows store dry limit).2.created +
        (runLoad rows store dry limit).2.updated =
      (read_csv_loop limit rows [] initStats).1.length ∧
    (read_csv_loop none rows [] initStats).2.errors =
      rows.countP (fun r => !rowOk r) := by
  obtain ⟨hc, hu, hs⟩ := read_csv_loop_counters limit rows [] initStats
  obtain ⟨g1, g2, _⟩ := load_foldl_counters
    (read_csv_loop limit rows [] initStats).1 dry
    (store, (read_csv_loop limit rows [] initStats).2)
  refine ⟨?_, ?_, ?_⟩
  · show (load_words_batch _ store dry _).2.skipped = 0
    unfold load_words_batch
    rw [g2]
    simpa [initStats] using hs
  · show (load_words_batch _ store dry _).2.created +
        (load_words_batch _ store dry _).2.updated = _
    unfold load_words_batch
    rw [g1]
    show (read_csv_loop limit rows [] initStats).2.created +
        (read_csv_loop limit rows [] initStats).2.updated + _ = _
    rw [hc, hu]
    simp [initStats]
  · simpa [initStats] using (read_csv_loop_none_spec rows [] initStats).1

/-- Claim C9.  `batch_find_similar_words` is total and partial-failure
tolerant: it returns one entry per target word in order (so it never
raises), and each target is mapped to its `find_similar_words` ranking
when that call succeeds and to the empty list when it fails with
not-found or a `ValueError`. -/
theorem C9_batch_tolerates_per_target_failure (targets : List String)
    (store : List WordEntry) (pos : Option String) (limit : Nat) (m : ℝ) :
    ((batch_find_similar_words targets store pos limit m).map Prod.fst
      = targets) ∧
    ∀ w ∈ targets,
      (w, match find_similar_words store w pos limit m with
          | .ok l => l
          | .error _ => []) ∈
        batch_find_similar_words targets store pos limit m := by
  induction targets with
  | nil => exact ⟨rfl, by simp [batch_find_similar_words]⟩
  | cons t ts ih =>
    refine ⟨?_, ?_⟩
    · simp only [batch_find_similar_words, List.map_cons, ih.1]
    · intro w hw
      rcases List.mem_cons.mp hw with rfl | hw
      · exact List.mem_cons_self _ _
      · exact List.mem_cons_of_mem _ (ih.2 w hw)

/-- Witness for `C9_batch_tolerates_per_target_failure`: one known and one
unknown target; the unknown one maps to the empty list, the batch still
lists both targets. -/
theorem C9_witness :
    ((batch_find_similar_words ["dog", "nope"] [dogE] none 10 0).map Prod.fst
      = ["dog", "nope"]) ∧
    ("nope", ([] : List (WordEntry × ℝ))) ∈
      batch_find_similar_words ["dog", "nope"] [dogE] none 10 0 := by
  refine ⟨(C9_batch_tolerates_per_target_failure ["dog", "nope"] [dogE]
    none 10 0).1, ?_⟩
  have h := (C9_batch_tolerates_per_target_failure ["dog", "nope"] [dogE]
    none 10 0).2 "nope" (by simp)
  have he : find_similar_words [dogE] "nope" none 10 0 = .error .notFound := rfl
  rw [he] at h
  exact h

/-- Claim C7.  The embedding attacher's counters always add up —
`words_skipped + words_with_embeddings = total_words` — and a word the
pretrained lookup misses (out of vocabulary) never appears in the output
record stream, because its row gets a null embedding and `dropna` removes
it. -/
theorem C7_counts_add_up_and_oov_dropped (df : List ClassRow)
    (lookup : String → Option (List ℚ)) :
    ((process_words_in_batches df lookup).2.words_skipped +
        (process_words_in_batches df lookup).2.words_with_embeddings =
      (process_words_in_batches df lookup).2.total_words) ∧
    ∀ w, get_embedding lookup w = none →
      ∀ p ∈ (process_words_in_batches df lookup).1, p.1.word ≠ w := by
  refine ⟨?_, ?_⟩
  · show (df.map _).countP _ + (df.map _).countP _ = df.length
    rw [← List.length_map df (fun r => (r, get_embedding lookup r.word))]
    generalize df.map (fun r => (r, get_embedding lookup r.word)) = l
    induction l with
    | nil => rfl
    | cons x xs ih =>
      cases hx : x.2 <;> simp [List.countP_cons, hx] <;> omega
  · intro w hw p hp hpw
    obtain ⟨q, hq, hqe⟩ := List.mem_filterMap.mp hp
    obtain ⟨r, _hr, rfl⟩ := List.mem_map.mp hq
    obtain ⟨e, he, hpe⟩ := Option.map_eq_some'.mp hqe
    rw [← hpe] at hpw
    rw [hpw, hw] at he
    exact Option.noConfusion he

/-- Concrete input of `C7_witness`: one in-vocabulary and one
out-of-vocabulary word. -/
def dfW : List ClassRow :=
  [{ word := "dog", noun := "Y", verb := "N" },
   { word := "qqq", noun := "N", verb := "Y" }]

/-- The pretrained vector model of `C7_witness`: only `dog` has a vector. -/
def lookupW : String → Option (List ℚ) :=
  fun w => if w == "dog" then some [1] else none

/-- Witness for `C7_counts_add_up_and_oov_dropped` on a two-row input with
one out-of-vocabulary word. -/
theorem C7_witness :
    ((process_words_in_batches dfW lookupW).2.words_skipped +
        (process_words_in_batches dfW lookupW).2.words_with_embeddings =
      (process_words_in_batches dfW lookupW).2.total_words) ∧
    ({ word := "dog", noun := "Y", verb := "N" } : ClassRow).word ≠ "qqq" := by
  have h := C7_counts_add_up_and_oov_dropped dfW lookupW
  refine ⟨h.1, ?_⟩
  refine h.2 "qqq" (by simp [get_embedding, lookupW, pyStrip])
    ({ word := "dog", noun := "Y", verb := "N" }, [1]) ?_
  show _ ∈ (process_words_in_batches dfW lookupW).1
  simp [process_words_in_batches, dfW, lookupW, get_embedding, pyStrip]

/-! ## Claim C8: the classifier is order-invariant -/

/-- The words a raw file contributes: one per line that parses. -/
def fileWords (f : RawFile) : List String :=
  f.lines.filterMap (fun line => extract_word_from_line (pyStrip line))

/-- The label-set contribution of one file to one word. -/
def fileContrib (f : RawFile) (w : String) : Finset String :=
  if f.lines.isEmpty then ∅
  else
    match parse_filename f.name with
    | none => ∅
    | some (pos, lang, _len) =>
      if lang ≠ "en" ∨ (pos ≠ "noun" ∧ pos ≠ "verb") then ∅
      else if w ∈ fileWords f then {pos} else ∅

theorem linesFold_eq (pos : String) (lines : List String)
    (m : String → Finset String) :
    (lines.foldl (fun m line =>
        match extract_word_from_line (pyStrip line) with
        | some w => fun x => if x = w then insert pos (m x) else m x
        | none => m) m) =
      fun x => m x ∪
        (if x ∈ lines.filterMap (fun line => extract_word_from_line (pyStrip line))
          then {pos} else ∅) := by
  induction lines generalizing m with
  | nil => funext x; simp
  | cons line rest ih =>
    rw [List.foldl_cons]
    cases he : extract_word_from_line (pyStrip line) with
    | none =>
      simp only [he]
      rw [ih]
      funext x
      simp [List.filterMap_cons, he]
    | some w =>
      simp only [he]
      rw [ih]
      funext x
      simp only [List.filterMap_cons, he]
      by_cases hx : x = w
      · subst hx
        by_cases hr : x ∈ rest.filterMap
            (fun line => extract_word_from_line (pyStrip line))
        · rw [if_pos rfl, if_pos hr, if_pos (List.mem_cons_self _ _)]
          ext a
          by_cases ha : a = pos <;> simp [ha]
        · rw [if_pos rfl, if_neg hr, if_pos (List.mem_cons_self _ _)]
          ext a
          by_cases ha : a = pos <;> simp [ha]
      · by_cases hr : x ∈ rest.filterMap
            (fun line => extract_word_from_line (pyStrip line))
        · rw [if_neg hx, if_pos hr, if_pos (List.mem_cons_of_mem _ hr)]
        · rw [if_neg hx, if_neg hr, if_neg (by simp [hx, hr])]

/-- Model of `applyFile` only unions per-file label contributions into the map. -/
theorem applyFile_eq (m : String → Finset String) (f : RawFile) :
    applyFile m f = fun w => m w ∪ fileContrib f w := by
  funext w
  unfold applyFile fileContrib
  by_cases h1 : f.lines.isEmpty = true
  · simp [h1]
  · cases hp : parse_filename f.name with
    | none => simp [h1, hp]
    | some t =>
      obtain ⟨pos, lang, len⟩ := t
      by_cases h2 : lang ≠ "en" ∨ (pos ≠ "noun" ∧ pos ≠ "verb")
      · simp [h1, hp, h2]
      · simp only [if_neg h1, hp, if_neg h2]
        rw [linesFold_eq pos f.lines m]
        simp [fileWords]

/-- Processing two files commutes, because each only unions in its own
contribution. -/
theorem applyFile_comm (m : String → Finset String) (f g : RawFile) :
    applyFile (applyFile m f) g = applyFile (applyFile m g) f := by
  rw [applyFile_eq m f, applyFile_eq m g, applyFile_eq, applyFile_eq]
  funext w
  exact Finset.union_right_comm _ _ _

theorem foldl_applyFile_perm {l₁ l₂ : List RawFile} (h : l₁.Perm l₂) :
    ∀ m, l₁.foldl applyFile m = l₂.foldl applyFile m := by
  induction h with
  | nil => intro m; rfl
  | cons x _h ih =>
    intro m
    simp only [List.foldl_cons]
    exact ih _
  | swap x y l =>
    intro m
    simp only [List.foldl_cons]
    rw [applyFile_comm]
  | trans _h₁ _h₂ ih₁ ih₂ =>
    intro m
    rw [ih₁ m, ih₂ m]

theorem insertByName_perm (x : RawFile) (l : List RawFile) :
    (insertByName x l).Perm (x :: l) := by
  induction l with
  | nil => simp [insertByName]
  | cons y ys ih =>
    unfold insertByName
    by_cases hc : x.name ≤ y.name
    · rw [if_pos hc]
    · rw [if_neg hc]
      exact (ih.cons y).trans (List.Perm.swap x y ys)

theorem sortByName_perm (l : List RawFile) :
    (l.foldr insertByName []).Perm l := by
  induction l with
  | nil => simp
  | cons x xs ih =>
    simp only [List.foldr_cons]
    exact (insertByName_perm x _).trans (ih.cons x)

/-- Claim C8.  The classifier's word → part-of-speech-set mapping is
invariant under permutation of the input file list: the per-file updates
are unions into each word's label set, and unions commute, so any
processing order of the same files yields the identical mapping (the code
additionally sorts the file list by name before folding). -/
theorem C8_classifier_mapping_order_invariant (l₁ l₂ : List RawFile)
    (h : l₁.Perm l₂) : process_word_files l₁ = process_word_files l₂ := by
  unfold process_word_files
  exact foldl_applyFile_perm
    (((sortByName_perm l₁).trans h).trans (sortByName_perm l₂).symm) _

/-- An English noun list. -/
def fileNoun : RawFile :=
  { name := "pos=noun,lang=en,length=3.txt", lines := ["dog: a pet"] }

/-- An English verb list. -/
def fileVerb : RawFile :=
  { name := "pos=verb,lang=en,length=3.txt", lines := ["run: to move"] }

/-- Witness for `C8_classifier_mapping_order_invariant`: swapping two
concrete files leaves the mapping unchanged. -/
theorem C8_witness :
    process_word_files [fileNoun, fileVerb] =
      process_word_files [fileVerb, fileNoun] :=
  C8_classifier_mapping_order_invariant [fileNoun, fileVerb]
    [fileVerb, fileNoun] (List.Perm.swap fileVerb fileNoun [])
